import Mathlib

/-!
Shallow embedding of `src/realmStorage.js` (the RealmStorage facade over the
Realm engine) and proofs about its behaviour.

JavaScript values that the facade actually manipulates are modelled
concretely: errors as name/message pairs, records as association lists from
field names to primitive values, and the Realm engine as an explicit store
together with a trace of engine events.  Every public operation of the facade
is a pure function from a storage state to a new storage state, the list of
error-sink notifications it emitted, and an `Except` result (an exception or
a return value).
-/

namespace RealmStorage

/-- A JavaScript `Error`-like value: a `name` (the constructor / type of the
error, e.g. `"Error"`) and a `message`. -/
structure JSError where
  name : String
  message : String
deriving DecidableEq, Repr

/-- `String(error)` for an `Error` object: `Error.prototype.toString` yields
`name + ": " + message`, dropping the separator when either part is empty. -/
def errToString (e : JSError) : String :=
  if e.name = "" then e.message
  else if e.message = "" then e.name
  else e.name ++ ": " ++ e.message

/-- `new Error(error)`: a fresh generic `Error` whose message is the string
conversion of the argument.  This is what every `catch` block of the facade
throws (`throw new Error(error)`). -/
def wrapError (e : JSError) : JSError :=
  { name := "Error", message := errToString e }

/-- A primitive JavaScript value stored in a record field. -/
inductive Value where
  | vInt (i : Int)
  | vStr (s : String)
  | vBool (b : Bool)
deriving DecidableEq, Repr

/-- JavaScript string conversion of a primitive value, as performed by the
template literal in `convertFilter` (no quoting or escaping). -/
def Value.display : Value → String
  | .vInt i => toString i
  | .vStr s => s
  | .vBool b => if b then "true" else "false"

/-- A record (a plain JS object): an association list from field names to
values, in property insertion order (the order `Object.keys` iterates). -/
abbrev Rec := List (String × Value)

/-- Property access on a record: the value bound to a field name, if any. -/
def getField : Rec → String → Option Value
  | [], _ => none
  | p :: rest, k => if p.1 = k then some p.2 else getField rest k

/-- A filter argument of `getItems` / `convertFilter`: either a raw query
string or a mapping of field names to equality values. -/
inductive Filter where
  | str (s : String)
  | map (m : Rec)
deriving DecidableEq, Repr

/-- `convertFilter` (lines 195-207): a string passes through unchanged; an
object becomes `key = value` clauses pushed into an array over
`Object.keys(filter)` and joined with `" AND "`. -/
def convertFilter : Filter → String
  | .str s => s
  | .map m =>
      let query := m.foldl (fun q p => q ++ [p.1 ++ " = " ++ p.2.display]) []
      String.intercalate " AND " query

/-- JavaScript `Array.prototype.indexOf` on a string array: index of the
first occurrence, `-1` when absent. -/
def jsIndexOf : List String → String → Int
  | [], _ => -1
  | x :: xs, k =>
      if x = k then 0
      else
        let r := jsIndexOf xs k
        if r < 0 then -1 else r + 1

/-- The error thrown by `checkSchema` for an unregistered name (line 215). -/
def schemaNotFoundError (key : String) : JSError :=
  { name := "Error", message := "Schema for " ++ key ++ " it\x27s not defined." }

/-- `checkSchema` (lines 213-217): throws when `schemaNames.indexOf(key) < 0`,
otherwise returns normally.  It reads only the registered name list, so it is
modelled as a pure function of that list. -/
def checkSchema (schemaNames : List String) (key : String) : Except JSError Unit :=
  if jsIndexOf schemaNames key < 0 then
    .error (schemaNotFoundError key)
  else
    .ok ()

theorem jsIndexOf_neg_iff (l : List String) (k : String) :
    jsIndexOf l k < 0 ↔ k ∉ l := by
  induction l with
  | nil => simp [jsIndexOf]
  | cons x xs ih =>
      by_cases hx : x = k
      · simp [jsIndexOf, hx]
      · simp only [jsIndexOf, if_neg hx]
        by_cases hr : jsIndexOf xs k < 0
        · simp only [if_pos hr]
          constructor
          · intro _
            intro hmem
            rcases List.mem_cons.mp hmem with h | h
            · exact hx h.symm
            · exact (ih.mp hr) h
          · intro _; decide
        · simp only [if_neg hr]
          have hk : k ∈ xs := not_not.mp (fun hnot => hr (ih.mpr hnot))
          constructor
          · intro hlt
            have h0 : (0 : Int) ≤ jsIndexOf xs k := not_lt.mp hr
            omega
          · intro hmem
            exact absurd (List.mem_cons_of_mem x hk) hmem

/-- A schema definition passed to `setup`: a type name and an optional
primary-key field name (the engine-specific property spec is irrelevant to
the facade's logic and is not modelled). -/
structure Schema where
  name : String
  primaryKey : Option String
deriving DecidableEq, Repr

/-- An event of the engine-access trace: each engine primitive the facade
invokes is logged, so "no engine access" is "no new trace events". -/
inductive EngEvent where
  | read (key : String)
  | filtered (q : String)
  | beginWrite
  | endWrite
  | created (key : String)
  | deleted
deriving DecidableEq, Repr

/-- Records of a given type name in the store (`[]` when absent). -/
def storeGet : List (String × List Rec) → String → List Rec
  | [], _ => []
  | p :: rest, key => if p.1 = key then p.2 else storeGet rest key

/-- Replace the record list of a type name in the store. -/
def storeSet : List (String × List Rec) → String → List Rec → List (String × List Rec)
  | [], key, recs => [(key, recs)]
  | p :: rest, key, recs =>
      if p.1 = key then (key, recs) :: rest else p :: storeSet rest key recs

/-- Modelled from the spec: the embedded Realm engine, an external
collaborator of this repository.  It holds the schema list it was opened
with, the record store, and — as environment behaviour injected for the
analysis — a set of type names whose deletion the engine rejects and the
engine's query evaluator for `filtered`.  `trace` records every engine
access the facade performs. -/
structure Engine where
  schemas : List Schema
  schemaVersion : Nat
  store : List (String × List Rec)
  failDelete : List String
  queryEval : List Rec → String → List Rec
  trace : List EngEvent

/-- Primary key of a type name according to the schemas the engine was
opened with. -/
def Engine.primaryKeyOf (e : Engine) (key : String) : Option String :=
  match e.schemas.find? (fun s => s.name = key) with
  | some s => s.primaryKey
  | none => none

/-- Modelled from the spec: `realm.objects(key)` — the engine's lookup of a
type's record set.  The engine always returns an enumerable result set
(`some`), never a falsy value, but the facade's callers handle `none`
defensively, so the raw result type keeps the possibility. -/
def Engine.objectsRaw (e : Engine) (key : String) : Engine × Option (List Rec) :=
  ({ e with trace := e.trace ++ [.read key] }, some (storeGet e.store key))

/-- Update a single field of a record: overwrite it in place when present,
append it otherwise. -/
def setField : Rec → String → Value → Rec
  | [], k, v => [(k, v)]
  | p :: rest, k, v => if p.1 = k then (k, v) :: rest else p :: setField rest k v

/-- Merge `val` into `r`: every field present in `val` overwrites the
corresponding field of `r`; fields of `r` absent from `val` are untouched. -/
def mergeRec (r : Rec) (val : Rec) : Rec :=
  val.foldl (fun acc p => setField acc p.1 p.2) r

/-- Modelled from the spec: `realm.create(key, value, updating)` — the
engine's native create.  Without `updating`, a new record is inserted (a
duplicate primary key is rejected by the engine).  With `updating`, a record
with the same primary key is merged field-by-field (fields absent from
`value` are left untouched); otherwise the value is inserted as a new
record.  Update mode requires a declared primary key present in the value. -/
def Engine.create (e : Engine) (key : String) (val : Rec) (updating : Bool) :
    Except JSError (Engine × Rec) :=
  let recs := storeGet e.store key
  let commit : List Rec → Engine := fun recs' =>
    { e with store := storeSet e.store key recs', trace := e.trace ++ [.created key] }
  match e.primaryKeyOf key with
  | none =>
      if updating then
        .error { name := "Error", message := "Type " ++ key ++ " does not have a primary key" }
      else
        .ok (commit (recs ++ [val]), val)
  | some pkF =>
      match getField val pkF with
      | none =>
          .error { name := "Error", message := "Missing primary key property " ++ pkF }
      | some v =>
          if recs.any (fun r => getField r pkF = some v) then
            if updating then
              let recs' := recs.map (fun r => if getField r pkF = some v then mergeRec r val else r)
              match recs.find? (fun r => getField r pkF = some v) with
              | some r0 => .ok (commit recs', mergeRec r0 val)
              | none => .error { name := "Error", message := "unreachable" }
            else
              .error { name := "Error",
                       message := "Attempting to create an object of type " ++ key ++
                                  " with an existing primary key value" }
          else
            .ok (commit (recs ++ [val]), val)

/-- The error the injected engine environment raises when it rejects the
deletion of a type's records. -/
def deleteError (key : String) : JSError :=
  { name := "Error", message := "Cannot delete objects of type " ++ key }

/-- Modelled from the spec: `realm.delete(results)` on the full result set of
a type — empties that type's records; the injected environment may make the
engine reject the deletion for certain type names. -/
def Engine.deleteAll (e : Engine) (key : String) : Except JSError Engine :=
  if e.failDelete.contains key then
    .error (deleteError key)
  else
    .ok { e with store := storeSet e.store key [], trace := e.trace ++ [.deleted] }

/-- Remove the first occurrence of a record from a list. -/
def removeFirst : List Rec → Rec → List Rec
  | [], _ => []
  | r :: rs, t => if r = t then rs else r :: removeFirst rs t

/-- A handle to a stored record, as returned to and passed back by callers of
`deleteItem`: the record knows its own type. -/
structure RealmObject where
  typeName : String
  fields : Rec
deriving DecidableEq, Repr

/-- Modelled from the spec: `realm.delete(item)` on a single record — the
record identifies its type to the engine; the injected environment may make
the engine reject the deletion. -/
def Engine.deleteOne (e : Engine) (item : RealmObject) : Except JSError Engine :=
  if e.failDelete.contains item.typeName then
    .error (deleteError item.typeName)
  else
    .ok { e with
          store := storeSet e.store item.typeName
                     (removeFirst (storeGet e.store item.typeName) item.fields),
          trace := e.trace ++ [.deleted] }

/-- Log the opening of a `realm.write` transaction scope. -/
def Engine.beginWrite (e : Engine) : Engine :=
  { e with trace := e.trace ++ [.beginWrite] }

/-- Log the successful commit of a `realm.write` transaction scope. -/
def Engine.endWrite (e : Engine) : Engine :=
  { e with trace := e.trace ++ [.endWrite] }

/-- The static state of the `RealmStorage` class after `setup`: the schema
list, the derived name list, the derived primary-key map, whether an error
callback was configured, and the opened engine handle. -/
structure StorageState where
  schemas : List Schema
  schemaNames : List String
  primaryKeys : List (String × Option String)
  hasErrorCallback : Bool
  realm : Engine

/-- A notification emitted by `onUncaught` (lines 239-246): either the
configured error callback was invoked with the error, or the error was
written to the console. -/
inductive Notification where
  | callback (e : JSError)
  | console (e : JSError)
deriving DecidableEq, Repr

/-- `onUncaught` (lines 239-246): invoke the configured callback with the
error when one exists, else log the error to diagnostic output. -/
def onUncaught (hasErrorCallback : Bool) (e : JSError) : Notification :=
  if hasErrorCallback then .callback e else .console e

/-- Result of one public operation: the new static state, the error-sink
notifications emitted during it, and the returned value or thrown error. -/
abbrev OpOut (α : Type) := StorageState × List Notification × Except JSError α

/-- Engine-environment behaviour `setup` opens its handle onto: whatever the
database already contains, plus the injected failure and query behaviour of
the external engine. -/
structure EngineEnv where
  initialStore : List (String × List Rec)
  failDelete : List String
  queryEval : List Rec → String → List Rec

/-- `setup` (lines 33-56): records the schemas, derives the name list and the
primary-key map, records the error callback, and opens the engine with the
schema list and `version || 1` as schema version. -/
def setup (schemas : List Schema) (version : Nat) (hasErrorCallback : Bool)
    (env : EngineEnv) : StorageState :=
  { schemas := schemas
    schemaNames := schemas.map (fun s => s.name)
    primaryKeys := schemas.map (fun s => (s.name, s.primaryKey))
    hasErrorCallback := hasErrorCallback
    realm :=
      { schemas := schemas
        schemaVersion := if version = 0 then 1 else version
        store := env.initialStore
        failDelete := env.failDelete
        queryEval := env.queryEval
        trace := [] } }

/-- `createItem` (lines 64-79): check the schema, then create the record
inside one `realm.write` scope and return it; any failure is notified to
`onUncaught` and rethrown as `new Error(error)`. -/
def createItem (st : StorageState) (key : String) (value : Rec) : OpOut Rec :=
  match checkSchema st.schemaNames key with
  | .error e => (st, [onUncaught st.hasErrorCallback e], .error (wrapError e))
  | .ok _ =>
      let e1 := st.realm.beginWrite
      match e1.create key value false with
      | .error err =>
          ({ st with realm := e1 }, [onUncaught st.hasErrorCallback err], .error (wrapError err))
      | .ok (e2, item) =>
          ({ st with realm := e2.endWrite }, [], .ok item)

/-- `updateItem` (lines 87-103): check the schema, then create-or-merge the
record in update mode inside one `realm.write` scope and return it; any
failure is notified to `onUncaught` and rethrown as `new Error(error)`. -/
def updateItem (st : StorageState) (key : String) (value : Rec) : OpOut Rec :=
  match checkSchema st.schemaNames key with
  | .error e => (st, [onUncaught st.hasErrorCallback e], .error (wrapError e))
  | .ok _ =>
      let e1 := st.realm.beginWrite
      match e1.create key value true with
      | .error err =>
          ({ st with realm := e1 }, [onUncaught st.hasErrorCallback err], .error (wrapError err))
      | .ok (e2, item) =>
          ({ st with realm := e2.endWrite }, [], .ok item)

/-- `deleteItem` (lines 110-120): delete the given record inside one
`realm.write` scope; any failure is notified and rethrown wrapped. -/
def deleteItem (st : StorageState) (item : RealmObject) : OpOut Unit :=
  let e1 := st.realm.beginWrite
  match e1.deleteOne item with
  | .error err =>
      ({ st with realm := e1 }, [onUncaught st.hasErrorCallback err], .error (wrapError err))
  | .ok e2 =>
      ({ st with realm := e2.endWrite }, [], .ok ())

/-- The defensive tail of `getItems` (lines 143-147): return the data when it
is truthy (any engine result-set object is), else return `null`. -/
def defensiveNull (data : Option (List Rec)) : Option (List Rec) :=
  match data with
  | some d => some d
  | none => none

/-- JavaScript truthiness of a filter value: the empty string is the only
falsy filter value; every object (even an empty mapping) is truthy. -/
def Filter.jsTruthy : Filter → Bool
  | .str s => s ≠ ""
  | .map _ => true

/-- JavaScript truthiness of the optional `filter` argument of `getItems`,
as tested by `if (!filter)` on line 134: an absent argument and the empty
string are falsy; everything else is truthy. -/
def jsTruthyFilter : Option Filter → Bool
  | none => false
  | some f => f.jsTruthy

/-- `getItems` (lines 128-152): check the schema; when the filter argument is
falsy (`if (!filter)` — absent or the empty string) return all objects of
the type, otherwise return the engine's filtered view of them selected by
`convertFilter filter`; return `null` when the lookup result is falsy.  Any
failure is notified and rethrown wrapped.  (Calling `.filtered` on a falsy
lookup result would itself be a thrown `TypeError`.) -/
def getItems (st : StorageState) (key : String) (filter : Option Filter) :
    OpOut (Option (List Rec)) :=
  match checkSchema st.schemaNames key with
  | .error e => (st, [onUncaught st.hasErrorCallback e], .error (wrapError e))
  | .ok _ =>
      match filter with
      | none =>
          let (e1, data) := st.realm.objectsRaw key
          ({ st with realm := e1 }, [], .ok (defensiveNull data))
      | some f =>
          if f.jsTruthy then
            let (e1, data0) := st.realm.objectsRaw key
            match data0 with
            | none =>
                let terr : JSError := { name := "TypeError", message := "null is not an object" }
                ({ st with realm := e1 }, [onUncaught st.hasErrorCallback terr],
                 .error (wrapError terr))
            | some d =>
                let q := convertFilter f
                let e2 := { e1 with trace := e1.trace ++ [.filtered q] }
                ({ st with realm := e2 }, [], .ok (defensiveNull (some (e2.queryEval d q))))
          else
            let (e1, data) := st.realm.objectsRaw key
            ({ st with realm := e1 }, [], .ok (defensiveNull data))

/-- The `else` branch of `removeAll` (lines 173-181): for each registered
name in order, read the type's result set and, when it is truthy, delete it
inside its own `realm.write` scope; an engine failure aborts the loop with
the raw error, leaving earlier deletions committed. -/
def removeAllLoop (e : Engine) : List String → Engine × Option JSError
  | [] => (e, none)
  | name :: rest =>
      let (e1, data) := e.objectsRaw name
      match data with
      | none => removeAllLoop e1 rest
      | some _ =>
          let e2 := e1.beginWrite
          match e2.deleteAll name with
          | .error err => (e2, some err)
          | .ok e3 => removeAllLoop e3.endWrite rest

/-- JavaScript truthiness of the optional `key` argument of `removeAll`: an
absent argument and the empty string are falsy. -/
def jsTruthyKey : Option String → Bool
  | none => false
  | some s => s ≠ ""

/-- `removeAll` (lines 159-187): with a truthy key, check the schema and
delete that type's result set inside one `realm.write` scope; with a falsy
key, delete every registered type's result set, one `realm.write` scope per
type.  Any failure is notified and rethrown wrapped. -/
def removeAll (st : StorageState) (key : Option String) : OpOut Unit :=
  if jsTruthyKey key then
    let k := key.getD ""
    match checkSchema st.schemaNames k with
    | .error e => (st, [onUncaught st.hasErrorCallback e], .error (wrapError e))
    | .ok _ =>
        let (e1, data) := st.realm.objectsRaw k
        match data with
        | none => ({ st with realm := e1 }, [], .ok ())
        | some _ =>
            let e2 := e1.beginWrite
            match e2.deleteAll k with
            | .error err =>
                ({ st with realm := e2 }, [onUncaught st.hasErrorCallback err],
                 .error (wrapError err))
            | .ok e3 => ({ st with realm := e3.endWrite }, [], .ok ())
  else
    match removeAllLoop st.realm st.schemaNames with
    | (e1, some err) =>
        ({ st with realm := e1 }, [onUncaught st.hasErrorCallback err], .error (wrapError err))
    | (e1, none) => ({ st with realm := e1 }, [], .ok ())

/-- `getAllKeys` (lines 223-225): the registered name list, promise-wrapped
in the source purely to match an asynchronous contract. -/
def getAllKeys (st : StorageState) : List String :=
  st.schemaNames

/-- `getModel` (lines 231-233): the shared engine handle itself. -/
def getModel (st : StorageState) : Engine :=
  st.realm

/-- The failure-propagation policy of §7: when an operation's result is a
thrown error, exactly one error-sink notification was emitted, carrying the
original error, and the thrown error is the generic wrap of the original —
its `name` is `"Error"` whatever the original's was, and its message retains
the original message; when the operation returns normally, no notification
was emitted. -/
def errorPolicy {α : Type} (hasCb : Bool) (notifs : List Notification)
    (res : Except JSError α) : Prop :=
  match res with
  | .error e2 =>
      ∃ e, notifs = [onUncaught hasCb e] ∧ e2 = wrapError e ∧
        e2.name = "Error" ∧ ∃ p, e2.message = p ++ e.message
  | .ok _ => notifs = []

/-- The engine events of one iteration of `removeAll`'s delete-everything
loop for one type: a read of the type's result set and one whole transaction
deleting it. -/
def perTypeTrace (n : String) : List EngEvent :=
  [.read n, .beginWrite, .deleted, .endWrite]

/-- One invocation of a public mutation/query operation of the facade. -/
inductive OpCall where
  | create (key : String) (value : Rec)
  | update (key : String) (value : Rec)
  | deleteIt (item : RealmObject)
  | getIt (key : String) (filter : Option Filter)
  | removeIt (key : Option String)

/-- The state reached after one operation (its returned value and
notifications dropped). -/
def applyOp (st : StorageState) : OpCall → StorageState
  | .create key value => (createItem st key value).1
  | .update key value => (updateItem st key value).1
  | .deleteIt item => (deleteItem st item).1
  | .getIt key filter => (getItems st key filter).1
  | .removeIt key => (removeAll st key).1

/-- The state reached after a sequence of operations. -/
def runOps (st : StorageState) : List OpCall → StorageState
  | [] => st
  | c :: cs => runOps (applyOp st c) cs

/-- A concrete engine environment for examples: empty database, no injected
failures, and a query evaluator that keeps every record. -/
def sampleEnv : EngineEnv :=
  { initialStore := [], failDelete := [], queryEval := fun r _ => r }

/-- A concrete post-`setup` state over a single `User` schema. -/
def sampleState : StorageState :=
  setup [{ name := "User", primaryKey := some "id" }] 1 false sampleEnv

/-- A concrete post-`setup` state whose database already holds one `User`. -/
def sampleState2 : StorageState :=
  setup [{ name := "User", primaryKey := some "id" }] 1 false
    { sampleEnv with
      initialStore := [("User", [[("id", .vInt 1), ("name", .vStr "Ann")]])] }

/-- A concrete two-schema state whose engine rejects deletions of `Card`
records. -/
def sampleState3 : StorageState :=
  setup [{ name := "User", primaryKey := some "id" },
         { name := "Card", primaryKey := some "id" }] 1 false
    { sampleEnv with
      initialStore := [("User", [[("id", .vInt 1)]]), ("Card", [[("id", .vInt 2)]])],
      failDelete := ["Card"] }

/-- A populated one-schema state whose engine query evaluator returns the
empty view for every query, so a filtered view and the full record set are
observably different. -/
def sampleState4 : StorageState :=
  setup [{ name := "User", primaryKey := some "id" }] 1 false
    { initialStore := [("User", [[("id", .vInt 1)]])], failDelete := [],
      queryEval := fun _ _ => [] }

/-! ### Basic lemmas about the embedded helpers -/

theorem checkSchema_mem (names : List String) (k : String) (h : k ∈ names) :
    checkSchema names k = .ok () := by
  unfold checkSchema
  rw [if_neg]
  intro hlt
  exact (jsIndexOf_neg_iff names k).mp hlt h

theorem checkSchema_not_mem (names : List String) (k : String) (h : k ∉ names) :
    checkSchema names k = .error (schemaNotFoundError k) := by
  unfold checkSchema
  rw [if_pos ((jsIndexOf_neg_iff names k).mpr h)]

theorem wrapError_generic_keeps_message (e : JSError) :
    (wrapError e).name = "Error" ∧ ∃ p, (wrapError e).message = p ++ e.message := by
  refine ⟨rfl, ?_⟩
  unfold wrapError errToString
  by_cases h1 : e.name = ""
  · exact ⟨"", by simp [h1]⟩
  · by_cases h2 : e.message = ""
    · exact ⟨e.name, by simp [h1, h2]⟩
    · exact ⟨e.name ++ ": ", by simp [h1, h2, String.append_assoc]⟩

theorem foldl_push_eq_map {α : Type} (f : α → String) (l : List α) (acc : List String) :
    l.foldl (fun q p => q ++ [f p]) acc = acc ++ l.map f := by
  induction l generalizing acc with
  | nil => simp
  | cons x xs ih => simp [List.foldl_cons, ih]

theorem storeGet_storeSet_self (s : List (String × List Rec)) (k : String) (v : List Rec) :
    storeGet (storeSet s k v) k = v := by
  induction s with
  | nil => simp [storeSet, storeGet]
  | cons p rest ih =>
      by_cases h : p.1 = k
      · simp [storeSet, storeGet, h]
      · simp [storeSet, storeGet, h, ih]

theorem storeGet_storeSet_other (s : List (String × List Rec)) (k k' : String)
    (v : List Rec) (h : k' ≠ k) :
    storeGet (storeSet s k v) k' = storeGet s k' := by
  have h1 : ¬ (k = k') := fun he => h he.symm
  induction s with
  | nil =>
      simp only [storeSet, storeGet]
      rw [if_neg h1]
  | cons p rest ih =>
      by_cases hp : p.1 = k
      · have h2 : ¬ (p.1 = k') := fun he => h1 (hp.symm.trans he)
        simp only [storeSet, if_pos hp, storeGet, if_neg h1, if_neg h2]
      · by_cases hp' : p.1 = k'
        · simp only [storeSet, if_neg hp, storeGet, if_pos hp']
        · simp only [storeSet, if_neg hp, storeGet, if_neg hp', ih]

theorem any_eq_false_of_no_match {α : Type} (q : α → Prop) [DecidablePred q]
    (l : List α) (h : ∀ x ∈ l, ¬ q x) :
    (l.any fun x => q x) = false := by
  induction l with
  | nil => rfl
  | cons x xs ih =>
      simp only [List.any_cons, Bool.or_eq_false_iff]
      exact ⟨decide_eq_false (h x (List.mem_cons_self x xs)),
             ih (fun y hy => h y (List.mem_cons_of_mem x hy))⟩

theorem any_eq_true_of_match {α : Type} (q : α → Prop) [DecidablePred q]
    (l : List α) (x0 : α) (hx : x0 ∈ l) (hq : q x0) :
    (l.any fun x => q x) = true := by
  induction l with
  | nil => exact absurd hx (List.not_mem_nil x0)
  | cons x xs ih =>
      simp only [List.any_cons, Bool.or_eq_true]
      rcases List.mem_cons.mp hx with h | h
      · exact Or.inl (decide_eq_true (h ▸ hq))
      · exact Or.inr (ih h)

theorem find?_append_first_match {α : Type} (q : α → Prop) [DecidablePred q]
    (pre post : List α) (x0 : α)
    (hpre : ∀ x ∈ pre, ¬ q x) (hx0 : q x0) :
    ((pre ++ x0 :: post).find? fun x => q x) = some x0 := by
  induction pre with
  | nil => simp [List.find?, decide_eq_true hx0]
  | cons x xs ih =>
      have hx : ¬ q x := hpre x (List.mem_cons_self x xs)
      simp only [List.cons_append, List.find?]
      rw [decide_eq_false hx]
      exact ih (fun y hy => hpre y (List.mem_cons_of_mem x hy))

theorem map_ite_no_match {α : Type} (q : α → Prop) [DecidablePred q] (f : α → α)
    (l : List α) (h : ∀ x ∈ l, ¬ q x) :
    (l.map fun x => if q x then f x else x) = l := by
  induction l with
  | nil => rfl
  | cons x xs ih =>
      simp only [List.map_cons, if_neg (h x (List.mem_cons_self x xs))]
      rw [ih (fun y hy => h y (List.mem_cons_of_mem x hy))]

theorem map_ite_single_match {α : Type} (q : α → Prop) [DecidablePred q] (f : α → α)
    (pre post : List α) (x0 : α)
    (hpre : ∀ x ∈ pre, ¬ q x) (hpost : ∀ x ∈ post, ¬ q x) (hx0 : q x0) :
    ((pre ++ x0 :: post).map fun x => if q x then f x else x) =
      pre ++ f x0 :: post := by
  induction pre with
  | nil =>
      simp only [List.nil_append, List.map_cons, if_pos hx0]
      rw [map_ite_no_match q f post hpost]
  | cons x xs ih =>
      simp only [List.cons_append, List.map_cons,
        if_neg (hpre x (List.mem_cons_self x xs))]
      rw [ih (fun y hy => hpre y (List.mem_cons_of_mem x hy))]

theorem filter_eq_nil_of_no_match {α : Type} (q : α → Prop) [DecidablePred q]
    (l : List α) (h : ∀ x ∈ l, ¬ q x) :
    (l.filter fun x => q x) = [] := by
  induction l with
  | nil => rfl
  | cons x xs ih =>
      rw [List.filter_cons, if_neg (by simpa using h x (List.mem_cons_self x xs))]
      exact ih (fun y hy => h y (List.mem_cons_of_mem x hy))

theorem getField_setField_other (r : Rec) (k g : String) (v : Value) (h : k ≠ g) :
    getField (setField r k v) g = getField r g := by
  induction r with
  | nil =>
      simp only [setField, getField]
      rw [if_neg h]
  | cons p rest ih =>
      by_cases hp : p.1 = k
      · have h2 : ¬ (p.1 = g) := fun he => h (hp.symm.trans he)
        simp only [setField, if_pos hp, getField, if_neg h, if_neg h2]
      · by_cases hp' : p.1 = g
        · simp only [setField, if_neg hp, getField, if_pos hp']
        · simp only [setField, if_neg hp, getField, if_neg hp', ih]

theorem getField_mergeRec_absent (val : Rec) (r : Rec) (g : String)
    (h : ∀ x, (g, x) ∉ val) :
    getField (mergeRec r val) g = getField r g := by
  induction val generalizing r with
  | nil => rfl
  | cons p rest ih =>
      have hg : p.1 ≠ g := by
        intro he
        exact h p.2 (he ▸ (by simp : (p.1, p.2) ∈ p :: rest))
      have hstep : mergeRec r (p :: rest) = mergeRec (setField r p.1 p.2) rest := rfl
      rw [hstep, ih _ (fun x hx => h x (List.mem_cons_of_mem p hx)),
        getField_setField_other _ _ _ _ hg]

theorem Engine.primaryKeyOf_congr (e e' : Engine) (key : String)
    (h : e.schemas = e'.schemas) :
    e.primaryKeyOf key = e'.primaryKeyOf key := by
  unfold Engine.primaryKeyOf
  rw [h]

theorem Engine.create_update_insert (e : Engine) (key pkF : String) (kv : Value) (val : Rec)
    (hpk : e.primaryKeyOf key = some pkF) (hv : getField val pkF = some kv)
    (hno : ∀ r ∈ storeGet e.store key, ¬ getField r pkF = some kv) :
    e.create key val true =
      .ok ({ e with store := storeSet e.store key (storeGet e.store key ++ [val]),
                    trace := e.trace ++ [.created key] }, val) := by
  have hany : ((storeGet e.store key).any fun r => getField r pkF = some kv) = false :=
    any_eq_false_of_no_match _ _ hno
  simp only [Engine.create, hpk, hv, hany, Bool.false_eq_true, if_false]

theorem Engine.create_update_merge (e : Engine) (key pkF : String) (kv : Value)
    (val r0 : Rec) (pre post : List Rec)
    (hpk : e.primaryKeyOf key = some pkF)
    (hsplit : storeGet e.store key = pre ++ r0 :: post)
    (hpre : ∀ r ∈ pre, ¬ getField r pkF = some kv)
    (hpost : ∀ r ∈ post, ¬ getField r pkF = some kv)
    (hr0 : getField r0 pkF = some kv)
    (hv : getField val pkF = some kv) :
    e.create key val true =
      .ok ({ e with store := storeSet e.store key (pre ++ mergeRec r0 val :: post),
                    trace := e.trace ++ [.created key] }, mergeRec r0 val) := by
  have hany : ((pre ++ r0 :: post).any fun r => getField r pkF = some kv) = true :=
    any_eq_true_of_match _ _ r0 (by simp) hr0
  have hfind : ((pre ++ r0 :: post).find? fun r => getField r pkF = some kv) = some r0 :=
    find?_append_first_match _ pre post r0 hpre hr0
  have hmap : ((pre ++ r0 :: post).map fun r =>
      if getField r pkF = some kv then mergeRec r val else r) =
      pre ++ mergeRec r0 val :: post :=
    map_ite_single_match _ _ pre post r0 hpre hpost hr0
  simp only [Engine.create, hpk, hv, hsplit, hany, if_true, hfind, hmap]

theorem updateItem_insert_case (st : StorageState) (key pkF : String) (kv : Value)
    (value : Rec)
    (hk : key ∈ st.schemaNames) (hpk : st.realm.primaryKeyOf key = some pkF)
    (hv : getField value pkF = some kv)
    (hno : ∀ r ∈ storeGet st.realm.store key, ¬ getField r pkF = some kv) :
    (updateItem st key value).2.2 = .ok value ∧
    (updateItem st key value).1.schemaNames = st.schemaNames ∧
    (updateItem st key value).1.realm.schemas = st.realm.schemas ∧
    (updateItem st key value).1.realm.store =
      storeSet st.realm.store key (storeGet st.realm.store key ++ [value]) := by
  have hpk' : (st.realm.beginWrite).primaryKeyOf key = some pkF :=
    (Engine.primaryKeyOf_congr st.realm.beginWrite st.realm key rfl).trans hpk
  have hcr := Engine.create_update_insert (st.realm.beginWrite) key pkF kv value hpk' hv hno
  simp only [updateItem, checkSchema_mem _ _ hk, hcr]
  refine ⟨?_, ?_, ?_, ?_⟩ <;> first | rfl | trivial

theorem updateItem_merge_case (st : StorageState) (key pkF : String) (kv : Value)
    (value r0 : Rec) (pre post : List Rec)
    (hk : key ∈ st.schemaNames) (hpk : st.realm.primaryKeyOf key = some pkF)
    (hsplit : storeGet st.realm.store key = pre ++ r0 :: post)
    (hpre : ∀ r ∈ pre, ¬ getField r pkF = some kv)
    (hpost : ∀ r ∈ post, ¬ getField r pkF = some kv)
    (hr0 : getField r0 pkF = some kv)
    (hv : getField value pkF = some kv) :
    (updateItem st key value).2.2 = .ok (mergeRec r0 value) ∧
    (updateItem st key value).1.schemaNames = st.schemaNames ∧
    (updateItem st key value).1.realm.schemas = st.realm.schemas ∧
    (updateItem st key value).1.realm.store =
      storeSet st.realm.store key (pre ++ mergeRec r0 value :: post) := by
  have hpk' : (st.realm.beginWrite).primaryKeyOf key = some pkF :=
    (Engine.primaryKeyOf_congr st.realm.beginWrite st.realm key rfl).trans hpk
  have hcr := Engine.create_update_merge (st.realm.beginWrite) key pkF kv value r0 pre post
    hpk' hsplit hpre hpost hr0 hv
  simp only [updateItem, checkSchema_mem _ _ hk, hcr]
  refine ⟨?_, ?_, ?_, ?_⟩ <;> first | rfl | trivial

theorem errorPolicy_error {α : Type} (hasCb : Bool) (e : JSError) :
    errorPolicy (α := α) hasCb [onUncaught hasCb e] (.error (wrapError e)) := by
  show ∃ e2, _
  exact ⟨e, rfl, rfl, (wrapError_generic_keeps_message e).1,
    (wrapError_generic_keeps_message e).2⟩

theorem errorPolicy_ok {α : Type} (hasCb : Bool) (a : α) :
    errorPolicy hasCb [] (.ok a) := rfl

/-! ### Claim theorems -/

/-- C1: for every name `S` in the schema list recorded at setup,
`checkSchema S` returns normally (and, being embedded as a pure function of
the name list, modifies no state); for every name `U` not in that list it
raises a `SchemaNotFoundError` whose message carries the offending name. -/
theorem checkSchema_registered_ok_unregistered_raises
    (names : List String) (S U : String) (hS : S ∈ names) (hU : U ∉ names) :
    checkSchema names S = .ok () ∧
    checkSchema names U = .error (schemaNotFoundError U) ∧
    (schemaNotFoundError U).message = "Schema for " ++ U ++ " it\x27s not defined." :=
  ⟨checkSchema_mem names S hS, checkSchema_not_mem names U hU, rfl⟩

theorem checkSchema_registered_ok_unregistered_raises_witness :
    checkSchema ["User"] "User" = .ok () ∧
    checkSchema ["User"] "Card" = .error (schemaNotFoundError "Card") ∧
    (schemaNotFoundError "Card").message = "Schema for " ++ "Card" ++ " it\x27s not defined." :=
  checkSchema_registered_ok_unregistered_raises ["User"] "User" "Card"
    (by decide) (by decide)

/-- C3: `convertFilter` is the identity on strings; on a mapping it yields
the `field = value` clauses, one per key in iteration order, joined by
`" AND "`, with values interpolated by plain string conversion; in
particular the mapping `\x7ba: 1, b: "x"\x7d` yields `"a = 1 AND b = x"`. -/
theorem convertFilter_passthrough_and_clauses :
    (∀ s, convertFilter (.str s) = s) ∧
    (∀ m, convertFilter (.map m) =
        String.intercalate " AND " (m.map (fun p => p.1 ++ " = " ++ p.2.display))) ∧
    convertFilter (.map [("a", .vInt 1), ("b", .vStr "x")]) = "a = 1 AND b = x" := by
  refine ⟨fun s => rfl, fun m => ?_, by rfl⟩
  simp [convertFilter, foldl_push_eq_map]

/-- C9: `convertFilter` on an empty mapping returns the empty string. -/
theorem convertFilter_empty_map : convertFilter (.map []) = "" := rfl

/-- C2: for every public operation and every failure raised during it —
engine exception or schema-validation failure — the operation first notifies
the error sink (the configured callback, or diagnostic logging if none) with
the original error, then rethrows a new generic error (`name = "Error"`,
whatever the original type was) whose message retains the original error's
message; when no failure occurs, nothing is notified. -/
theorem all_ops_notify_sink_then_rethrow_wrapped
    (st : StorageState) (key : String) (value : Rec) (item : RealmObject)
    (filter : Option Filter) (okey : Option String) :
    errorPolicy st.hasErrorCallback (createItem st key value).2.1 (createItem st key value).2.2 ∧
    errorPolicy st.hasErrorCallback (updateItem st key value).2.1 (updateItem st key value).2.2 ∧
    errorPolicy st.hasErrorCallback (deleteItem st item).2.1 (deleteItem st item).2.2 ∧
    errorPolicy st.hasErrorCallback (getItems st key filter).2.1 (getItems st key filter).2.2 ∧
    errorPolicy st.hasErrorCallback (removeAll st okey).2.1 (removeAll st okey).2.2 := by
  refine ⟨?_, ?_, ?_, ?_, ?_⟩
  · cases h : checkSchema st.schemaNames key with
    | error e => simp only [createItem, h]; exact errorPolicy_error _ e
    | ok u =>
        cases u
        cases h2 : (st.realm.beginWrite).create key value false with
        | error err => simp only [createItem, h, h2]; exact errorPolicy_error _ err
        | ok pr =>
            obtain ⟨e2, it⟩ := pr
            simp only [createItem, h, h2]
            exact errorPolicy_ok _ _
  · cases h : checkSchema st.schemaNames key with
    | error e => simp only [updateItem, h]; exact errorPolicy_error _ e
    | ok u =>
        cases u
        cases h2 : (st.realm.beginWrite).create key value true with
        | error err => simp only [updateItem, h, h2]; exact errorPolicy_error _ err
        | ok pr =>
            obtain ⟨e2, it⟩ := pr
            simp only [updateItem, h, h2]
            exact errorPolicy_ok _ _
  · cases h : (st.realm.beginWrite).deleteOne item with
    | error err => simp only [deleteItem, h]; exact errorPolicy_error _ err
    | ok e2 => simp only [deleteItem, h]; exact errorPolicy_ok _ _
  · cases h : checkSchema st.schemaNames key with
    | error e => simp only [getItems, h]; exact errorPolicy_error _ e
    | ok u =>
        cases u
        cases filter with
        | none => simp only [getItems, h, Engine.objectsRaw]; exact errorPolicy_ok _ _
        | some f =>
            cases ht : f.jsTruthy with
            | true =>
                simp only [getItems, h, ht, if_true, Engine.objectsRaw]
                exact errorPolicy_ok _ _
            | false =>
                simp only [getItems, h, ht, Bool.false_eq_true, if_false,
                  Engine.objectsRaw]
                exact errorPolicy_ok _ _
  · cases hk : jsTruthyKey okey with
    | true =>
        cases h : checkSchema st.schemaNames (okey.getD "") with
        | error e => simp only [removeAll, hk, if_true, h]; exact errorPolicy_error _ e
        | ok u =>
            cases u
            cases h2 : ((st.realm.objectsRaw (okey.getD "")).1.beginWrite).deleteAll (okey.getD "") with
            | error err =>
                simp only [removeAll, hk, if_true, h, Engine.objectsRaw] at *
                simp only [h2]
                exact errorPolicy_error _ err
            | ok e3 =>
                simp only [removeAll, hk, if_true, h, Engine.objectsRaw] at *
                simp only [h2]
                exact errorPolicy_ok _ _
    | false =>
        rcases hl : removeAllLoop st.realm st.schemaNames with ⟨e1, merr⟩
        cases merr with
        | some err => simp only [removeAll, hk, if_false, hl]; exact errorPolicy_error _ err
        | none => simp only [removeAll, hk, if_false, hl]; exact errorPolicy_ok _ _

theorem removeAllLoop_cons_ok (e : Engine) (n : String) (rest : List String)
    (hn : e.failDelete.contains n = false) :
    removeAllLoop e (n :: rest) =
      removeAllLoop
        { e with store := storeSet e.store n [],
                 trace := e.trace ++ perTypeTrace n } rest := by
  simp only [removeAllLoop, Engine.objectsRaw, Engine.beginWrite, Engine.deleteAll,
    Engine.endWrite, hn, Bool.false_eq_true, if_false, perTypeTrace,
    List.append_assoc, List.cons_append, List.nil_append]

theorem removeAllLoop_cons_fail (e : Engine) (n : String) (rest : List String)
    (hn : e.failDelete.contains n = true) :
    removeAllLoop e (n :: rest) =
      ({ e with trace := e.trace ++ [.read n, .beginWrite] }, some (deleteError n)) := by
  simp only [removeAllLoop, Engine.objectsRaw, Engine.beginWrite, Engine.deleteAll,
    hn, if_true, List.append_assoc, List.cons_append, List.nil_append]

theorem removeAllLoop_all_ok (ns : List String) :
    ∀ e : Engine, (∀ n ∈ ns, e.failDelete.contains n = false) →
    (removeAllLoop e ns).2 = none ∧
    (∀ m, storeGet (removeAllLoop e ns).1.store m =
      if m ∈ ns then [] else storeGet e.store m) ∧
    (removeAllLoop e ns).1.trace = e.trace ++ (ns.map perTypeTrace).flatten ∧
    (removeAllLoop e ns).1.failDelete = e.failDelete := by
  induction ns with
  | nil =>
      intro e _
      exact ⟨rfl, fun m => by simp [removeAllLoop], by simp [removeAllLoop], rfl⟩
  | cons n rest ih =>
      intro e h
      have hn : e.failDelete.contains n = false := h n (List.mem_cons_self n rest)
      rw [removeAllLoop_cons_ok e n rest hn]
      obtain ⟨c1, c2, c3, c4⟩ :=
        ih { e with store := storeSet e.store n [], trace := e.trace ++ perTypeTrace n }
          (fun m hm => h m (List.mem_cons_of_mem n hm))
      refine ⟨c1, ?_, ?_, c4⟩
      · intro m
        rw [c2 m]
        by_cases hm : m ∈ rest
        · simp [hm]
        · by_cases hmn : m = n
          · subst hmn
            simp [hm, storeGet_storeSet_self]
          · rw [if_neg hm]
            have : m ∉ n :: rest := by
              intro hc
              rcases List.mem_cons.mp hc with h' | h'
              · exact hmn h'
              · exact hm h'
            rw [if_neg this]
            exact storeGet_storeSet_other _ _ _ _ hmn
      · rw [c3]
        simp [List.append_assoc]

theorem removeAllLoop_fail_after (ns1 : List String) :
    ∀ (e : Engine) (bad : String) (ns2 : List String),
    (∀ n ∈ ns1, e.failDelete.contains n = false) →
    e.failDelete.contains bad = true →
    (removeAllLoop e (ns1 ++ bad :: ns2)).2 = some (deleteError bad) ∧
    (∀ m, storeGet (removeAllLoop e (ns1 ++ bad :: ns2)).1.store m =
      if m ∈ ns1 then [] else storeGet e.store m) ∧
    (removeAllLoop e (ns1 ++ bad :: ns2)).1.trace =
      e.trace ++ (ns1.map perTypeTrace).flatten ++ [.read bad, .beginWrite] := by
  induction ns1 with
  | nil =>
      intro e bad ns2 _ hbad
      rw [List.nil_append, removeAllLoop_cons_fail e bad ns2 hbad]
      exact ⟨rfl, fun m => by simp, by simp⟩
  | cons n rest ih =>
      intro e bad ns2 h1 hbad
      have hn : e.failDelete.contains n = false := h1 n (List.mem_cons_self n rest)
      rw [List.cons_append, removeAllLoop_cons_ok e n _ hn]
      obtain ⟨c1, c2, c3⟩ :=
        ih { e with store := storeSet e.store n [], trace := e.trace ++ perTypeTrace n }
          bad ns2 (fun m hm => h1 m (List.mem_cons_of_mem n hm)) hbad
      refine ⟨c1, ?_, ?_⟩
      · intro m
        rw [c2 m]
        by_cases hm : m ∈ rest
        · simp [hm]
        · by_cases hmn : m = n
          · subst hmn
            simp [hm, storeGet_storeSet_self]
          · rw [if_neg hm]
            have : m ∉ n :: rest := by
              intro hc
              rcases List.mem_cons.mp hc with h' | h'
              · exact hmn h'
              · exact hm h'
            rw [if_neg this]
            exact storeGet_storeSet_other _ _ _ _ hmn
      · rw [c3]
        simp [List.append_assoc]

/-- C4: `updateItem` validates the schema and creates-or-merges in update
mode inside a single transaction.  Part one: starting with no record of
primary key `kv`, `updateItem T \x7bpk: kv, fld: 1\x7d` then
`updateItem T \x7bpk: kv, fld: 2\x7d` leaves exactly one record with primary
key `kv`, whose `fld` is `2`, and that record is returned.  Part two: when a
record `r0` with the value's primary key exists, the update overwrites the
fields present in the value and leaves fields absent from the value
untouched, returning the merged record. -/
theorem updateItem_creates_or_merges_by_primary_key :
    (∀ (st : StorageState) (T pkF fld : String) (kv : Value),
      T ∈ st.schemaNames →
      st.realm.primaryKeyOf T = some pkF →
      fld ≠ pkF →
      (∀ r ∈ storeGet st.realm.store T, ¬ getField r pkF = some kv) →
      (updateItem st T [(pkF, kv), (fld, .vInt 1)]).2.2 = .ok [(pkF, kv), (fld, .vInt 1)] ∧
      (updateItem (updateItem st T [(pkF, kv), (fld, .vInt 1)]).1 T
          [(pkF, kv), (fld, .vInt 2)]).2.2 = .ok [(pkF, kv), (fld, .vInt 2)] ∧
      storeGet (updateItem (updateItem st T [(pkF, kv), (fld, .vInt 1)]).1 T
          [(pkF, kv), (fld, .vInt 2)]).1.realm.store T =
        storeGet st.realm.store T ++ [[(pkF, kv), (fld, .vInt 2)]] ∧
      ((storeGet (updateItem (updateItem st T [(pkF, kv), (fld, .vInt 1)]).1 T
          [(pkF, kv), (fld, .vInt 2)]).1.realm.store T).filter
          fun r => getField r pkF = some kv) = [[(pkF, kv), (fld, .vInt 2)]] ∧
      getField [(pkF, kv), (fld, .vInt 2)] fld = some (.vInt 2)) ∧
    (∀ (st : StorageState) (T pkF : String) (kv : Value) (v r0 : Rec)
        (pre post : List Rec),
      T ∈ st.schemaNames →
      st.realm.primaryKeyOf T = some pkF →
      storeGet st.realm.store T = pre ++ r0 :: post →
      (∀ r ∈ pre, ¬ getField r pkF = some kv) →
      (∀ r ∈ post, ¬ getField r pkF = some kv) →
      getField r0 pkF = some kv →
      getField v pkF = some kv →
      (updateItem st T v).2.2 = .ok (mergeRec r0 v) ∧
      storeGet (updateItem st T v).1.realm.store T = pre ++ mergeRec r0 v :: post ∧
      (∀ g, (∀ x, (g, x) ∉ v) → getField (mergeRec r0 v) g = getField r0 g)) := by
  constructor
  · intro st T pkF fld kv hT hpk hfld hno
    have hps : ¬ (pkF = fld) := fun he => hfld he.symm
    have hv1 : getField [(pkF, kv), (fld, .vInt 1)] pkF = some kv := by
      simp [getField]
    have hv2 : getField [(pkF, kv), (fld, .vInt 2)] pkF = some kv := by
      simp [getField]
    have step1 := updateItem_insert_case st T pkF kv [(pkF, kv), (fld, .vInt 1)]
      hT hpk hv1 hno
    have hT1 : T ∈ (updateItem st T [(pkF, kv), (fld, .vInt 1)]).1.schemaNames := by
      rw [step1.2.1]; exact hT
    have hpk1 : (updateItem st T [(pkF, kv), (fld, .vInt 1)]).1.realm.primaryKeyOf T =
        some pkF := by
      rw [Engine.primaryKeyOf_congr _ st.realm _ step1.2.2.1]
      exact hpk
    have hsplit1 : storeGet (updateItem st T [(pkF, kv), (fld, .vInt 1)]).1.realm.store T =
        storeGet st.realm.store T ++ [(pkF, kv), (fld, .vInt 1)] :: [] := by
      rw [step1.2.2.2, storeGet_storeSet_self]
    have hmerge : mergeRec [(pkF, kv), (fld, .vInt 1)] [(pkF, kv), (fld, .vInt 2)] =
        [(pkF, kv), (fld, .vInt 2)] := by
      simp [mergeRec, setField, hps]
    have step2 := updateItem_merge_case (updateItem st T [(pkF, kv), (fld, .vInt 1)]).1
      T pkF kv [(pkF, kv), (fld, .vInt 2)] [(pkF, kv), (fld, .vInt 1)]
      (storeGet st.realm.store T) [] hT1 hpk1 hsplit1 hno (by simp) hv1 hv2
    refine ⟨step1.1, ?_, ?_, ?_, ?_⟩
    · rw [step2.1, hmerge]
    · rw [step2.2.2.2, storeGet_storeSet_self, hmerge]
    · rw [step2.2.2.2, storeGet_storeSet_self, hmerge, List.filter_append,
        filter_eq_nil_of_no_match _ _ hno]
      simp [List.filter, decide_eq_true hv2]
    · simp [getField, hps]
  · intro st T pkF kv v r0 pre post hT hpk hsplit hpre hpost hr0 hv
    have step := updateItem_merge_case st T pkF kv v r0 pre post
      hT hpk hsplit hpre hpost hr0 hv
    refine ⟨step.1, ?_, ?_⟩
    · rw [step.2.2.2, storeGet_storeSet_self]
    · intro g hg
      exact getField_mergeRec_absent v r0 g hg

/-- Witness for C4 at concrete inputs: two updates on an empty `User` table
(part one) and a merge over an existing `User` record (part two). -/
theorem updateItem_creates_or_merges_by_primary_key_witness :
    ((updateItem sampleState "User" [("id", .vInt 1), ("age", .vInt 1)]).2.2 =
       .ok [("id", .vInt 1), ("age", .vInt 1)]) ∧
    ((updateItem (updateItem sampleState "User" [("id", .vInt 1), ("age", .vInt 1)]).1
        "User" [("id", .vInt 1), ("age", .vInt 2)]).2.2 =
       .ok [("id", .vInt 1), ("age", .vInt 2)]) ∧
    ((storeGet (updateItem (updateItem sampleState "User"
        [("id", .vInt 1), ("age", .vInt 1)]).1 "User"
        [("id", .vInt 1), ("age", .vInt 2)]).1.realm.store "User").filter
        fun r => getField r "id" = some (.vInt 1)) =
      [[("id", .vInt 1), ("age", .vInt 2)]] ∧
    ((updateItem sampleState2 "User" [("id", .vInt 1), ("age", .vInt 30)]).2.2 =
       .ok (mergeRec [("id", .vInt 1), ("name", .vStr "Ann")]
         [("id", .vInt 1), ("age", .vInt 30)])) ∧
    storeGet (updateItem sampleState2 "User"
        [("id", .vInt 1), ("age", .vInt 30)]).1.realm.store "User" =
      [] ++ mergeRec [("id", .vInt 1), ("name", .vStr "Ann")]
        [("id", .vInt 1), ("age", .vInt 30)] :: [] := by
  have hA := updateItem_creates_or_merges_by_primary_key.1 sampleState "User" "id" "age"
    (.vInt 1) (by decide) (by decide) (by decide) (by decide)
  have hB := updateItem_creates_or_merges_by_primary_key.2 sampleState2 "User" "id"
    (.vInt 1) [("id", .vInt 1), ("age", .vInt 30)]
    [("id", .vInt 1), ("name", .vStr "Ann")] [] []
    (by decide) (by decide) (by decide) (by decide) (by decide) (by decide) (by decide)
  exact ⟨hA.1, hA.2.1, hA.2.2.2.1, hB.1, hB.2.1⟩

/-- C5: `removeAll` with no argument iterates over every registered type
name in registration order, deleting each type's records inside its own
transaction (the trace shows one read followed by one whole write scope per
type, never one global scope).  When every deletion succeeds, every
registered type is emptied.  When the engine's deletion fails at type `bad`,
the types processed before `bad` stay deleted, the remaining types are
untouched, and the trace stops inside `bad`'s own write scope — no global
rollback. -/
theorem removeAll_no_arg_one_transaction_per_type :
    (∀ st : StorageState,
      (∀ n ∈ st.schemaNames, st.realm.failDelete.contains n = false) →
      (removeAll st none).2.2 = .ok () ∧
      (∀ n ∈ st.schemaNames, storeGet (removeAll st none).1.realm.store n = []) ∧
      (removeAll st none).1.realm.trace =
        st.realm.trace ++ (st.schemaNames.map perTypeTrace).flatten) ∧
    (∀ (st : StorageState) (ns1 ns2 : List String) (bad : String),
      st.schemaNames = ns1 ++ bad :: ns2 →
      (∀ n ∈ ns1, st.realm.failDelete.contains n = false) →
      st.realm.failDelete.contains bad = true →
      (removeAll st none).2.2 = .error (wrapError (deleteError bad)) ∧
      (removeAll st none).2.1 = [onUncaught st.hasErrorCallback (deleteError bad)] ∧
      (∀ n ∈ ns1, storeGet (removeAll st none).1.realm.store n = []) ∧
      (∀ m, m ∉ ns1 →
        storeGet (removeAll st none).1.realm.store m = storeGet st.realm.store m) ∧
      (removeAll st none).1.realm.trace =
        st.realm.trace ++ (ns1.map perTypeTrace).flatten ++ [.read bad, .beginWrite]) := by
  constructor
  · intro st h
    obtain ⟨c1, c2, c3, _⟩ := removeAllLoop_all_ok st.schemaNames st.realm h
    rcases hl : removeAllLoop st.realm st.schemaNames with ⟨e1, merr⟩
    rw [hl] at c1 c2 c3
    cases merr with
    | some err => exact absurd c1 (by simp)
    | none =>
        simp only [removeAll, jsTruthyKey, Bool.false_eq_true, if_false, hl]
        refine ⟨by trivial, ?_, c3⟩
        intro n hn
        rw [c2 n, if_pos hn]
  · intro st ns1 ns2 bad hsn h1 hbad
    obtain ⟨c1, c2, c3⟩ := removeAllLoop_fail_after ns1 st.realm bad ns2 h1 hbad
    rw [← hsn] at c1 c2 c3
    rcases hl : removeAllLoop st.realm st.schemaNames with ⟨e1, merr⟩
    rw [hl] at c1 c2 c3
    cases merr with
    | none => exact absurd c1 (by simp)
    | some err =>
        have herr : err = deleteError bad := by
          simpa using c1
        subst herr
        simp only [removeAll, jsTruthyKey, Bool.false_eq_true, if_false, hl]
        refine ⟨by trivial, by trivial, ?_, ?_, c3⟩
        · intro n hn
          rw [c2 n, if_pos hn]
        · intro m hm
          rw [c2 m, if_neg hm]

/-- Witness for C5: a two-schema state whose engine rejects deleting `Card`:
`removeAll` with no argument deletes the `User` records, fails on `Card`
leaving its records in place, and rethrows; and on a state with no injected
failure it empties every registered type. -/
theorem removeAll_no_arg_one_transaction_per_type_witness :
    (removeAll sampleState2 none).2.2 = .ok () ∧
    (removeAll sampleState3 none).2.2 = .error (wrapError (deleteError "Card")) ∧
    storeGet (removeAll sampleState3 none).1.realm.store "User" = [] ∧
    storeGet (removeAll sampleState3 none).1.realm.store "Card" =
      storeGet sampleState3.realm.store "Card" ∧
    (removeAll sampleState3 none).1.realm.trace =
      sampleState3.realm.trace ++ (["User"].map perTypeTrace).flatten ++
        [.read "Card", .beginWrite] := by
  have hA := (removeAll_no_arg_one_transaction_per_type.1 sampleState2 (by decide)).1
  have hB := removeAll_no_arg_one_transaction_per_type.2 sampleState3 ["User"] [] "Card"
    (by decide) (by decide) (by decide)
  exact ⟨hA, hB.1, hB.2.2.1 "User" (by decide), hB.2.2.2.1 "Card" (by decide), hB.2.2.2.2⟩

/-- C10: `removeAll` applied to the falsy empty-string key takes the
delete-everything branch: it behaves exactly as `removeAll` with no
argument, and in particular never validates `""` against the schema set —
it succeeds and empties every registered type's records. -/
theorem removeAll_empty_string_takes_delete_everything_branch :
    (∀ st : StorageState, removeAll st (some "") = removeAll st none) ∧
    (∀ st : StorageState,
      (∀ n ∈ st.schemaNames, st.realm.failDelete.contains n = false) →
      (removeAll st (some "")).2.2 = .ok () ∧
      (∀ n ∈ st.schemaNames, storeGet (removeAll st (some "")).1.realm.store n = [])) := by
  have hbranch : ∀ st : StorageState, removeAll st (some "") = removeAll st none := by
    intro st
    simp only [removeAll, jsTruthyKey]
    norm_num
  refine ⟨hbranch, ?_⟩
  intro st h
  obtain ⟨c1, c2, c3, _⟩ := removeAllLoop_all_ok st.schemaNames st.realm h
  rcases hl : removeAllLoop st.realm st.schemaNames with ⟨e1, merr⟩
  rw [hl] at c1 c2 c3
  cases merr with
  | some err => exact absurd c1 (by simp)
  | none =>
      rw [hbranch st]
      simp only [removeAll, jsTruthyKey, Bool.false_eq_true, if_false, hl]
      refine ⟨by trivial, ?_⟩
      intro n hn
      rw [c2 n, if_pos hn]

/-- Witness for C10: on the one-schema sample state, `removeAll ""` equals
`removeAll` with no argument, succeeds although `""` is not a registered
name, and empties the `User` records. -/
theorem removeAll_empty_string_takes_delete_everything_branch_witness :
    removeAll sampleState2 (some "") = removeAll sampleState2 none ∧
    (removeAll sampleState2 (some "")).2.2 = .ok () ∧
    storeGet (removeAll sampleState2 (some "")).1.realm.store "User" = [] := by
  have h1 := removeAll_empty_string_takes_delete_everything_branch.1 sampleState2
  have h2 := removeAll_empty_string_takes_delete_everything_branch.2 sampleState2 (by decide)
  exact ⟨h1, h2.1, h2.2 "User" (by decide)⟩

/-- Counterexample to C6 as stated: `getItems` called with the explicitly
passed empty-string filter — a filter, but a falsy one, which
`if (!filter)` on line 134 routes to the no-filter branch — returns the
full record set, not the engine's filtered view selected by
`convertFilter`, on an engine whose query evaluator separates the two. -/
theorem getItems_empty_string_filter_counterexample :
    (getItems sampleState4 "User" (some (.str ""))).2.2 =
      .ok (some (storeGet sampleState4.realm.store "User")) ∧
    ¬ ((getItems sampleState4 "User" (some (.str ""))).2.2 =
      .ok (some (sampleState4.realm.queryEval
        (storeGet sampleState4.realm.store "User") (convertFilter (.str ""))))) := by
  refine ⟨rfl, ?_⟩
  intro h
  rw [show (getItems sampleState4 "User" (some (.str ""))).2.2 =
      .ok (some [[("id", .vInt 1)]]) from rfl] at h
  rw [show (sampleState4.realm.queryEval
      (storeGet sampleState4.realm.store "User") (convertFilter (.str ""))) =
      [] from rfl] at h
  simp at h

/-- C6 (amended): for a registered type name, `getItems` with no filter — or
with a falsy filter, i.e. the empty string, which `if (!filter)` treats the
same as no filter — returns the engine's full record set for the type; with
a truthy filter it returns the engine's filtered view of that set selected
by `convertFilter filter`; and it returns `null` exactly when the engine
lookup itself yields a falsy result (which the engine model, like the real
engine, never produces). -/
theorem getItems_full_set_filtered_view_null
    (st : StorageState) (key : String) (hk : key ∈ st.schemaNames) :
    (∀ fo, jsTruthyFilter fo = false →
      (getItems st key fo).2.2 = .ok (some (storeGet st.realm.store key))) ∧
    (∀ f, Filter.jsTruthy f = true →
      (getItems st key (some f)).2.2 =
        .ok (some (st.realm.queryEval (storeGet st.realm.store key) (convertFilter f)))) ∧
    (∀ fo, (getItems st key fo).2.2 = .ok none ↔ (st.realm.objectsRaw key).2 = none) := by
  have h := checkSchema_mem st.schemaNames key hk
  refine ⟨?_, ?_, ?_⟩
  · intro fo hfo
    cases fo with
    | none => simp [getItems, h, Engine.objectsRaw, defensiveNull]
    | some f =>
        have ht : f.jsTruthy = false := by simpa [jsTruthyFilter] using hfo
        simp [getItems, h, ht, Engine.objectsRaw, defensiveNull]
  · intro f ht
    simp [getItems, h, ht, Engine.objectsRaw, defensiveNull]
  · intro fo
    constructor
    · intro hnull
      exfalso
      cases fo with
      | none => simp [getItems, h, Engine.objectsRaw, defensiveNull] at hnull
      | some f =>
          cases ht : f.jsTruthy with
          | true => simp [getItems, h, ht, Engine.objectsRaw, defensiveNull] at hnull
          | false => simp [getItems, h, ht, Engine.objectsRaw, defensiveNull] at hnull
    · intro habs
      exact absurd habs (by simp [Engine.objectsRaw])

/-- Witness for the amended C6 on the populated sample state: no filter and
the falsy empty-string filter both give the full `User` set, a truthy
mapping filter gives the view through the sample query evaluator, and the
null case. -/
theorem getItems_full_set_filtered_view_null_witness :
    (getItems sampleState2 "User" none).2.2 =
      .ok (some (storeGet sampleState2.realm.store "User")) ∧
    (getItems sampleState2 "User" (some (.str ""))).2.2 =
      .ok (some (storeGet sampleState2.realm.store "User")) ∧
    (getItems sampleState2 "User" (some (.map [("id", .vInt 1)]))).2.2 =
      .ok (some (sampleState2.realm.queryEval (storeGet sampleState2.realm.store "User")
        (convertFilter (.map [("id", .vInt 1)])))) ∧
    ((getItems sampleState2 "User" none).2.2 = .ok none ↔
      (sampleState2.realm.objectsRaw "User").2 = none) := by
  have h := getItems_full_set_filtered_view_null sampleState2 "User" (by decide)
  exact ⟨h.1 none (by decide), h.1 (some (.str "")) (by decide),
    h.2.1 (.map [("id", .vInt 1)]) (by decide), h.2.2 none⟩

/-- C7: every operation taking a type-name argument rejects an unregistered
name before any engine access: on such a name `createItem`, `updateItem`,
`getItems` and `removeAll`-with-a-name all return the thrown
schema-not-found error (wrapped, after the sink notification) and leave the
whole state — including the engine and its access trace — unchanged. -/
theorem unregistered_name_rejected_before_engine_access
    (st : StorageState) (key : String) (hkey : key ∉ st.schemaNames) :
    (∀ value, createItem st key value =
      (st, [onUncaught st.hasErrorCallback (schemaNotFoundError key)],
       .error (wrapError (schemaNotFoundError key)))) ∧
    (∀ value, updateItem st key value =
      (st, [onUncaught st.hasErrorCallback (schemaNotFoundError key)],
       .error (wrapError (schemaNotFoundError key)))) ∧
    (∀ filter, getItems st key filter =
      (st, [onUncaught st.hasErrorCallback (schemaNotFoundError key)],
       .error (wrapError (schemaNotFoundError key)))) ∧
    (key ≠ "" → removeAll st (some key) =
      (st, [onUncaught st.hasErrorCallback (schemaNotFoundError key)],
       .error (wrapError (schemaNotFoundError key)))) := by
  have h := checkSchema_not_mem st.schemaNames key hkey
  refine ⟨?_, ?_, ?_, ?_⟩
  · intro value
    simp [createItem, h]
  · intro value
    simp [updateItem, h]
  · intro filter
    simp [getItems, h]
  · intro hne
    have ht : jsTruthyKey (some key) = true := by
      simp [jsTruthyKey, hne]
    simp [removeAll, ht, Option.getD, h]

/-- Witness for C7: the unregistered name `Card` is rejected by every
name-taking operation on the sample state, which is left unchanged. -/
theorem unregistered_name_rejected_before_engine_access_witness :
    createItem sampleState "Card" [] =
      (sampleState, [onUncaught sampleState.hasErrorCallback (schemaNotFoundError "Card")],
       .error (wrapError (schemaNotFoundError "Card"))) ∧
    updateItem sampleState "Card" [] =
      (sampleState, [onUncaught sampleState.hasErrorCallback (schemaNotFoundError "Card")],
       .error (wrapError (schemaNotFoundError "Card"))) ∧
    getItems sampleState "Card" none =
      (sampleState, [onUncaught sampleState.hasErrorCallback (schemaNotFoundError "Card")],
       .error (wrapError (schemaNotFoundError "Card"))) ∧
    removeAll sampleState (some "Card") =
      (sampleState, [onUncaught sampleState.hasErrorCallback (schemaNotFoundError "Card")],
       .error (wrapError (schemaNotFoundError "Card"))) := by
  have h := unregistered_name_rejected_before_engine_access sampleState "Card" (by decide)
  exact ⟨h.1 [], h.2.1 [], h.2.2.1 none, h.2.2.2 (by decide)⟩

theorem applyOp_schemaNames (st : StorageState) (c : OpCall) :
    (applyOp st c).schemaNames = st.schemaNames := by
  cases c with
  | create key value =>
      show (createItem st key value).1.schemaNames = _
      cases h : checkSchema st.schemaNames key with
      | error e => simp [createItem, h]
      | ok u =>
          cases u
          cases h2 : (st.realm.beginWrite).create key value false with
          | error err => simp [createItem, h, h2]
          | ok pr =>
              obtain ⟨e2, it⟩ := pr
              simp [createItem, h, h2]
  | update key value =>
      show (updateItem st key value).1.schemaNames = _
      cases h : checkSchema st.schemaNames key with
      | error e => simp [updateItem, h]
      | ok u =>
          cases u
          cases h2 : (st.realm.beginWrite).create key value true with
          | error err => simp [updateItem, h, h2]
          | ok pr =>
              obtain ⟨e2, it⟩ := pr
              simp [updateItem, h, h2]
  | deleteIt item =>
      show (deleteItem st item).1.schemaNames = _
      cases h : (st.realm.beginWrite).deleteOne item with
      | error err => simp [deleteItem, h]
      | ok e2 => simp [deleteItem, h]
  | getIt key filter =>
      show (getItems st key filter).1.schemaNames = _
      cases h : checkSchema st.schemaNames key with
      | error e => simp [getItems, h]
      | ok u =>
          cases u
          cases filter with
          | none => simp [getItems, h, Engine.objectsRaw]
          | some f =>
              cases ht : f.jsTruthy with
              | true => simp [getItems, h, ht, Engine.objectsRaw]
              | false => simp [getItems, h, ht, Engine.objectsRaw]
  | removeIt key =>
      show (removeAll st key).1.schemaNames = _
      cases hk : jsTruthyKey key with
      | true =>
          cases h : checkSchema st.schemaNames (key.getD "") with
          | error e => simp [removeAll, hk, h]
          | ok u =>
              cases u
              cases h2 : ((st.realm.objectsRaw (key.getD "")).1.beginWrite).deleteAll
                  (key.getD "") with
              | error err =>
                  simp only [removeAll, hk, if_true, h, Engine.objectsRaw] at *
                  simp [h2]
              | ok e3 =>
                  simp only [removeAll, hk, if_true, h, Engine.objectsRaw] at *
                  simp [h2]
      | false =>
          rcases hl : removeAllLoop st.realm st.schemaNames with ⟨e1, merr⟩
          cases merr with
          | some err => simp [removeAll, hk, hl]
          | none => simp [removeAll, hk, hl]

theorem runOps_schemaNames (ops : List OpCall) :
    ∀ st : StorageState, (runOps st ops).schemaNames = st.schemaNames := by
  induction ops with
  | nil => intro st; rfl
  | cons c cs ih =>
      intro st
      show (runOps (applyOp st c) cs).schemaNames = _
      rw [ih (applyOp st c), applyOp_schemaNames]

/-- C8: after `setup`, `getAllKeys` returns exactly the names of the schema
definitions passed to `setup`, in registration order, and no sequence of
subsequent `createItem` / `updateItem` / `deleteItem` / `getItems` /
`removeAll` calls changes that. -/
theorem getAllKeys_names_in_registration_order_stable
    (schemas : List Schema) (version : Nat) (hasCb : Bool) (env : EngineEnv)
    (ops : List OpCall) :
    getAllKeys (runOps (setup schemas version hasCb env) ops) =
      schemas.map (fun s => s.name) := by
  unfold getAllKeys
  rw [runOps_schemaNames]
  rfl

end RealmStorage
